import Mathlib

/-!
Verification of the hound WAV codec (src/src/lib.rs) against its
natural-language specification.

The repository's `src/` holds only `lib.rs`: the `WavSpec` format
descriptor, the `Error` taxonomy with its `Display`, `error::Error` and
`From<io::Error>` implementations, the `Sample` trait with its `i16`
implementation, and the `write_read_is_lossless` test.  The `read` and
`write` modules (the `WavReader`, the `WavWriter`, and the byte-level
`ReadExt`/`WriteExt` helpers) are declared in `lib.rs` but their code is
not in the repository snapshot, so those components are modelled from the
specification, as marked on each definition below.

Byte streams are modelled as `List Nat` with every byte `< 256`; machine
integers are `Nat`/`Int` with explicit `% 2^w` where the on-disk layout
forces a width.  Fallible operations return `Except Error` or `Option`.
-/

namespace Hound

/-! ### Little-endian byte helpers -/

/-- `uleBytes w n` is the `w`-byte little-endian encoding of `n % 2^(8*w)`.
Models the unsigned little-endian serialisation used by the missing
`WriteExt` helpers (`write_le_u16`, `write_le_u32`, ...). -/
def uleBytes : Nat → Nat → List Nat
  | 0, _ => []
  | w + 1, n => n % 256 :: uleBytes w (n / 256)

/-- Value of a byte list read as an unsigned little-endian integer. -/
def leVal : List Nat → Nat
  | [] => 0
  | b :: bs => b + 256 * leVal bs

theorem uleBytes_length (w n : Nat) : (uleBytes w n).length = w := by
  induction w generalizing n with
  | zero => rfl
  | succ w ih => simp [uleBytes, ih]

theorem uleBytes_lt (w n : Nat) : ∀ b ∈ uleBytes w n, b < 256 := by
  induction w generalizing n with
  | zero => intro b hb; simp [uleBytes] at hb
  | succ w ih =>
    intro b hb
    simp only [uleBytes, List.mem_cons] at hb
    rcases hb with h | h
    · subst h; exact Nat.mod_lt _ (by norm_num)
    · exact ih _ b h

theorem leVal_uleBytes (w n : Nat) : leVal (uleBytes w n) = n % 2 ^ (8 * w) := by
  induction w generalizing n with
  | zero => simp [uleBytes, leVal, Nat.mod_one]
  | succ w ih =>
    simp only [uleBytes, leVal, ih]
    have h : 2 ^ (8 * (w + 1)) = 256 * 2 ^ (8 * w) := by
      rw [Nat.mul_add, pow_add, Nat.mul_comm]
      norm_num
    rw [h, Nat.mod_mul]

theorem uleBytes_leVal (bs : List Nat) (h : ∀ b ∈ bs, b < 256) :
    uleBytes bs.length (leVal bs) = bs := by
  induction bs with
  | nil => rfl
  | cons b bs ih =>
    have hb : b < 256 := h b (List.mem_cons_self _ _)
    have hrest : ∀ x ∈ bs, x < 256 := fun x hx => h x (List.mem_cons_of_mem _ hx)
    simp only [List.length_cons, uleBytes, leVal]
    have h1 : (b + 256 * leVal bs) % 256 = b := by omega
    have h2 : (b + 256 * leVal bs) / 256 = leVal bs := by omega
    rw [h1, h2, ih hrest]

/-- Interpret a byte list as a signed little-endian two's-complement
integer over its full byte width. -/
def sleVal (bs : List Nat) : Int :=
  let u := leVal bs
  if u < 2 ^ (8 * bs.length - 1) then (u : Int) else (u : Int) - 2 ^ (8 * bs.length)

theorem take_app {α : Type} (l₁ l₂ : List α) {n : Nat} (h : l₁.length = n) :
    (l₁ ++ l₂).take n = l₁ := by
  subst h
  induction l₁ with
  | nil => rfl
  | cons a l ih => simp [List.take, ih]

theorem drop_app {α : Type} (l₁ l₂ : List α) {n : Nat} (h : l₁.length = n) :
    (l₁ ++ l₂).drop n = l₂ := by
  subst h
  induction l₁ with
  | nil => rfl
  | cons a l ih => simp [List.drop, ih]

/-! ### The error model (`enum Error` in `lib.rs`) -/

/-- An opaque stand-in for `std::io::Error` values produced by the
underlying stream. -/
structure IoErr where
  msg : String
deriving DecidableEq, Repr

/-- `enum Error` from `lib.rs`: `IoError(io::Error)`,
`FormatError(&'static str)`, `TooWide`, `Unsupported`. -/
inductive Error where
  | ioError (e : IoErr)
  | formatError (reason : String)
  | tooWide
  | unsupported
deriving DecidableEq, Repr

/-- `impl From<io::Error> for Error` in `lib.rs`: wraps the underlying
error in the `IoError` variant unchanged. -/
def Error.fromIo (e : IoErr) : Error := Error.ioError e

/-- `Error::cause` from the `impl error::Error for Error` block in
`lib.rs`: `Some(err)` for `IoError(err)`, `None` for the other variants. -/
def Error.cause : Error → Option IoErr
  | Error.ioError e => some e
  | Error.formatError _ => none
  | Error.tooWide => none
  | Error.unsupported => none

/-- Category test: is this an `IoError`? -/
def Error.isIoFailure : Error → Bool
  | Error.ioError _ => true
  | _ => false

/-- Category test: is this a `FormatError` (malformed data with reason)? -/
def Error.isMalformed : Error → Bool
  | Error.formatError _ => true
  | _ => false

/-- Category test: is this `TooWide`? -/
def Error.isTooWide : Error → Bool
  | Error.tooWide => true
  | _ => false

/-- Category test: is this `Unsupported`? -/
def Error.isUnsupported : Error → Bool
  | Error.unsupported => true
  | _ => false

/-- How many of the four error categories an error belongs to. -/
def Error.categoryCount (e : Error) : Nat :=
  e.isIoFailure.toNat + e.isMalformed.toNat + e.isTooWide.toNat + e.isUnsupported.toNat

/-! ### The `i16` sample codec (`impl Sample for i16` in `lib.rs`) -/

/-- Modelled from the spec: `write_le_i16` of the missing `write` module's
`WriteExt` — emits the 2-byte little-endian two's-complement encoding of
an `i16` value (spec §4.2: "2 bytes little-endian, signed
two's-complement"). -/
def write_le_i16 (v : Int) : List Nat :=
  uleBytes 2 (v % 65536).toNat

/-- Modelled from the spec: `read_le_i16` of the missing `read` module's
`ReadExt` — consumes 2 bytes from the stream and interprets them as a
little-endian signed two's-complement integer; fails if fewer than 2
bytes remain. -/
def read_le_i16 (s : List Nat) : Except Error (Int × List Nat) :=
  if s.length < 2 then Except.error (Error.formatError "unexpected end of stream")
  else Except.ok (sleVal (s.take 2), s.drop 2)

/-- `<i16 as Sample>::write` from `lib.rs`: calls `write_le_i16` and
ignores the `bits` argument (the `_bits: u16` parameter). -/
def i16Sample_write (v : Int) (_bits : Nat) : List Nat :=
  write_le_i16 v

/-- `<i16 as Sample>::read` from `lib.rs`: calls `read_le_i16` and
ignores the `bits` argument (the `_bits: u16` parameter). -/
def i16Sample_read (s : List Nat) (_bits : Nat) : Except Error (Int × List Nat) :=
  read_le_i16 s

/-! ### The format descriptor (`struct WavSpec` in `lib.rs`) -/

/-- `struct WavSpec` from `lib.rs`: channel count (`u16`), sample rate
(`u32`), bits per sample (`u16`).  Machine widths are recorded as side
conditions where they matter rather than in the field types. -/
structure WavSpec where
  channels : Nat
  sample_rate : Nat
  bits_per_sample : Nat
deriving DecidableEq, Repr

/-! ### The sample codec (spec §4.2) -/

/-- Modelled from the spec: bytes per sample for a bit depth, per the
§4.2 table — 1–8 bits: 1 byte, 9–16: 2, 17–24: 3, 25–32: 4. -/
def bytesPerSample (bits : Nat) : Nat := (bits + 7) / 8

/-- Modelled from the spec: the range check of §4.2 — "a sample value's
decoded magnitude must fit in the stated bit width".  For 1–8 bits the
stored byte is the value plus a bias of 128; for 9–32 bits the value is
signed two's-complement in `bits` bits. -/
def validSample (bits : Nat) (v : Int) : Bool :=
  decide (-(2 ^ (bits - 1) : Int) ≤ v) && decide (v < (2 ^ (bits - 1) : Int))

/-- Modelled from the spec: SampleCodec encoding (§4.2).  1–8 bits: one
byte, unsigned with bias 128; 9–32 bits: `bytesPerSample` bytes,
little-endian two's-complement.  Widths outside 1–32 and out-of-range
values are rejected with `none` (§4.2: any other width is rejected as
unsupported; encoding an out-of-range value is rejected, not wrapped). -/
def encodeSample (bits : Nat) (v : Int) : Option (List Nat) :=
  if bits = 0 ∨ 32 < bits then none
  else if validSample bits v then
    if bits ≤ 8 then some [(v + 128).toNat]
    else some (uleBytes (bytesPerSample bits) (v % (2 ^ (8 * bytesPerSample bits))).toNat)
  else none

/-- Modelled from the spec: SampleCodec decoding (§4.2).  1–8 bits: one
byte with the bias of 128 subtracted; 9–32 bits: little-endian signed
two's-complement over the sample's byte width, sign-extended into the
working integer width (`Int`). -/
def decodeSample (bits : Nat) (bs : List Nat) : Int :=
  if bits ≤ 8 then (leVal bs : Int) - 128
  else sleVal bs

/-! ### The writer (spec §4.5, `WavWriter` of the missing `write` module) -/

/-- Modelled from the spec: the WAV header layout of §6, with the audio
format code as a parameter (offset 20) so that non-PCM streams can be
described.  `riffSize` and `dataSize` are the values stored into the two
`u32 LE` size fields at offsets 4 and 40. -/
def wavHeaderGen (code : Nat) (s : WavSpec) (riffSize dataSize : Nat) : List Nat :=
  let ba := s.channels * bytesPerSample s.bits_per_sample
  [82, 73, 70, 70] ++ uleBytes 4 riffSize ++ [87, 65, 86, 69] ++
  [102, 109, 116, 32] ++ uleBytes 4 16 ++
  uleBytes 2 code ++ uleBytes 2 s.channels ++ uleBytes 4 s.sample_rate ++
  uleBytes 4 (s.sample_rate * ba) ++ uleBytes 2 ba ++ uleBytes 2 s.bits_per_sample ++
  [100, 97, 116, 97] ++ uleBytes 4 dataSize

/-- The 4-byte ASCII tag "RIFF". -/
def riffTag : List Nat := [82, 73, 70, 70]

/-- The 4-byte ASCII tag "WAVE". -/
def waveTag : List Nat := [87, 65, 86, 69]

/-- The 4-byte ASCII tag "fmt ". -/
def fmtTag : List Nat := [102, 109, 116, 32]

/-- The 4-byte ASCII tag "data". -/
def dataTag : List Nat := [100, 97, 116, 97]

/-- Modelled from the spec: the writer session state of §3 — the
caller-supplied format, the sample bytes appended so far, and the two
running counters consumed at finalize time. -/
structure WavWriter where
  spec : WavSpec
  data : List Nat
  samples_written : Nat
  data_bytes_written : Nat
deriving DecidableEq, Repr

/-- Modelled from the spec: `WavWriter::new` (§4.5) — a fresh session
with the provisional header conceptually written and both counters at
zero.  The header bytes themselves are produced at finalize, when the
placeholder size fields are patched. -/
def WavWriter.new (s : WavSpec) : WavWriter :=
  { spec := s, data := [], samples_written := 0, data_bytes_written := 0 }

/-- Modelled from the spec: `write_sample` (§4.5) — encodes one value via
SampleCodec, appends it, and increments `samples_written` and
`data_bytes_written`. -/
def write_sample (w : WavWriter) (v : Int) : Option WavWriter :=
  match encodeSample w.spec.bits_per_sample v with
  | none => none
  | some bs =>
    some { w with
      data := w.data ++ bs,
      samples_written := w.samples_written + 1,
      data_bytes_written := w.data_bytes_written + bs.length }

/-- Write a whole list of samples in order. -/
def writeSamples : WavWriter → List Int → Option WavWriter
  | w, [] => some w
  | w, v :: vs =>
    match write_sample w v with
    | none => none
    | some w2 => writeSamples w2 vs

/-- Modelled from the spec: `finalize` (§4.5) — append one pad byte if
`data_bytes_written` is odd, then patch the `data` chunk size field with
`data_bytes_written` and the RIFF size field with the total file size
minus 8 (both stored as `u32 LE`, hence modulo `2^32`).  Returns the
complete finalized byte stream. -/
def finalize (w : WavWriter) : List Nat :=
  let pad : List Nat := if w.data_bytes_written % 2 = 1 then [0] else []
  wavHeaderGen 1 w.spec (36 + w.data_bytes_written + pad.length)
    w.data_bytes_written ++ w.data ++ pad

/-- The `u32 LE` data chunk size field at offset 40 of a WAV byte stream. -/
def dataSizeField (file : List Nat) : Nat :=
  leVal ((file.drop 40).take 4)

/-- The `u32 LE` RIFF size field at offset 4 of a WAV byte stream. -/
def riffSizeField (file : List Nat) : Nat :=
  leVal ((file.drop 4).take 4)

/-! ### The reader (spec §4.4, `WavReader` of the missing `read` module) -/

/-- Modelled from the spec: expect a fixed 4-byte ASCII tag at the head
of the stream; a stream that cannot supply 4 bytes, or whose next 4
bytes differ from the tag, fails with a malformed-data error (§4.1,
§4.4 Opening). -/
def expectTag (t : List Nat) (msg : String) (s : List Nat) :
    Except Error (List Nat) :=
  if s.length < 4 then Except.error (Error.formatError "unexpected end of stream")
  else if s.take 4 = t then Except.ok (s.drop 4)
  else Except.error (Error.formatError msg)

/-- Modelled from the spec: the ChunkCursor scan of §4.1/§4.4 — read
8-byte chunk headers (4-byte tag, `u32 LE` size), returning the size and
the stream positioned at the payload when the tag matches, and otherwise
skipping the payload plus one pad byte when the size is odd.  A header
that cannot supply 8 full bytes, or a skip past the end of the stream,
fails with a malformed-data error. -/
def scanForChunk (target : List Nat) (s : List Nat) :
    Except Error (Nat × List Nat) :=
  if h : s.length < 8 then Except.error (Error.formatError "unexpected end of stream")
  else
    let tag := s.take 4
    let sz := leVal ((s.drop 4).take 4)
    let rest := s.drop 8
    if tag = target then Except.ok (sz, rest)
    else
      let skip := sz + sz % 2
      if skip ≤ rest.length then scanForChunk target (rest.drop skip)
      else Except.error (Error.formatError "unexpected end of stream")
termination_by s.length
decreasing_by
  simp only [List.length_drop]
  omega

/-- Modelled from the spec: parsing the `fmt ` chunk body (§4.3) — the
audio format code must equal 1 (PCM), otherwise `Unsupported`; channels,
sample rate and bits per sample are read from their §6 offsets; the byte
rate and block align fields are present but not enforced. -/
def parseFmt (sz : Nat) (s : List Nat) : Except Error (WavSpec × List Nat) :=
  if sz < 16 then Except.error (Error.formatError "fmt chunk too small")
  else if s.length < sz + sz % 2 then
    Except.error (Error.formatError "unexpected end of stream")
  else
    let code := leVal (s.take 2)
    if code ≠ 1 then Except.error Error.unsupported
    else
      Except.ok
        ({ channels := leVal ((s.drop 2).take 2),
           sample_rate := leVal ((s.drop 4).take 4),
           bits_per_sample := leVal ((s.drop 14).take 2) },
         s.drop (sz + sz % 2))

/-- Modelled from the spec: the reader session after a successful open —
the parsed format, the declared `data` chunk size, and the data bytes
available in the stream (at most the declared size; trailing garbage
beyond it is ignored, §4.4 Streaming). -/
structure WavReader where
  spec : WavSpec
  dataSize : Nat
  avail : List Nat
deriving DecidableEq, Repr

/-- Modelled from the spec: `WavReader::new` (§4.4) — consume the outer
`RIFF` header (its size field is advisory), the `WAVE` form type, scan
sub-chunks for `fmt ` and parse it, then scan for `data` and record its
declared size and available payload. -/
def readWav (s : List Nat) : Except Error WavReader :=
  Except.bind (expectTag riffTag "no RIFF tag found" s) (fun s1 =>
  Except.bind (if s1.length < 4 then
                 Except.error (Error.formatError "unexpected end of stream")
               else Except.ok (s1.drop 4)) (fun s1b =>
  Except.bind (expectTag waveTag "no WAVE tag found" s1b) (fun s2 =>
  Except.bind (scanForChunk fmtTag s2) (fun p =>
  Except.bind (parseFmt p.1 p.2) (fun q =>
  Except.bind (scanForChunk dataTag q.2) (fun d =>
  Except.ok { spec := q.1, dataSize := d.1, avail := d.2.take d.1 }))))))

/-- Modelled from the spec: `samples<T>()` (§4.4 Streaming) with the
caller's target type width `w` in bits — a finite sequence of
`dataSize / bytesPerSample` fallible decodes; every element fails with
`TooWide` when `bits_per_sample` exceeds `w`; a sample whose bytes run
past the available data fails with a malformed-data error. -/
def wavSamples (r : WavReader) (w : Nat) : List (Except Error Int) :=
  let bps := bytesPerSample r.spec.bits_per_sample
  (List.range (r.dataSize / bps)).map fun i =>
    if w < r.spec.bits_per_sample then Except.error Error.tooWide
    else if (i + 1) * bps ≤ r.avail.length then
      Except.ok (decodeSample r.spec.bits_per_sample ((r.avail.drop (i * bps)).take bps))
    else Except.error (Error.formatError "unexpected end of stream")

/-! ### Byte-level codec lemmas -/

theorem sleVal_uleBytes (B : Nat) (hB : 1 ≤ B) (v : Int)
    (hlo : -(2 ^ (8 * B - 1) : Int) ≤ v) (hhi : v < (2 ^ (8 * B - 1) : Int)) :
    sleVal (uleBytes B (v % (2 ^ (8 * B) : Int)).toNat) = v := by
  have hsplit : (2 ^ (8 * B) : Int) = 2 ^ (8 * B - 1) * 2 := by
    rw [← pow_succ]
    congr 1
    omega
  have hhalf : (0 : Int) < 2 ^ (8 * B - 1) := by positivity
  have hcastM : ((2 ^ (8 * B) : Nat) : Int) = (2 ^ (8 * B) : Int) := by push_cast; rfl
  have hcastH : ((2 ^ (8 * B - 1) : Nat) : Int) = (2 ^ (8 * B - 1) : Int) := by
    push_cast; rfl
  have hMne : (2 ^ (8 * B) : Nat) ≠ 0 := by positivity
  rcases le_or_lt 0 v with hv | hv
  · have hlt : v < (2 ^ (8 * B) : Int) := by
      calc v < 2 ^ (8 * B - 1) := hhi
      _ ≤ 2 ^ (8 * B) := pow_le_pow_right₀ (by norm_num) (by omega)
    have hmod : v % (2 ^ (8 * B) : Int) = v := Int.emod_eq_of_lt hv hlt
    rw [hmod]
    simp only [sleVal, leVal_uleBytes, uleBytes_length]
    have htnH : v.toNat < 2 ^ (8 * B - 1) := by
      rw [Int.toNat_lt' (by positivity), hcastH]
      exact hhi
    have htnM : v.toNat < 2 ^ (8 * B) := by
      rw [Int.toNat_lt' hMne, hcastM]
      exact hlt
    rw [Nat.mod_eq_of_lt htnM, if_pos htnH, Int.toNat_of_nonneg hv]
  · have h0 : (0 : Int) ≤ v + 2 ^ (8 * B) := by
      rw [hsplit]
      linarith
    have h1 : v + 2 ^ (8 * B) < (2 ^ (8 * B) : Int) := by linarith
    have hmod : v % (2 ^ (8 * B) : Int) = v + 2 ^ (8 * B) := by
      rw [← Int.add_mul_emod_self_left (b := (2 ^ (8 * B) : Int)) (c := 1)]
      rw [Int.mul_one]
      exact Int.emod_eq_of_lt h0 h1
    rw [hmod]
    simp only [sleVal, leVal_uleBytes, uleBytes_length]
    have htnM : (v + 2 ^ (8 * B)).toNat < 2 ^ (8 * B) := by
      rw [Int.toNat_lt' hMne, hcastM]
      exact h1
    have hge : ¬ (v + 2 ^ (8 * B)).toNat < 2 ^ (8 * B - 1) := by
      rw [Int.toNat_lt' (by positivity), hcastH, hsplit]
      push_neg
      linarith
    rw [Nat.mod_eq_of_lt htnM, if_neg hge, Int.toNat_of_nonneg h0]
    ring

theorem validSample_iff (bits : Nat) (v : Int) :
    validSample bits v = true ↔
      -(2 ^ (bits - 1) : Int) ≤ v ∧ v < (2 ^ (bits - 1) : Int) := by
  simp [validSample]

theorem bits_le_mul_bytesPerSample (bits : Nat) : bits ≤ 8 * bytesPerSample bits := by
  unfold bytesPerSample
  omega

theorem encodeSample_eq_some (bits : Nat) (v : Int)
    (hb : 1 ≤ bits) (hb32 : bits ≤ 32) (hv : validSample bits v = true) :
    encodeSample bits v =
      some (if bits ≤ 8 then [(v + 128).toNat]
            else uleBytes (bytesPerSample bits) (v % (2 ^ (8 * bytesPerSample bits) : Int)).toNat) := by
  unfold encodeSample
  rw [if_neg (by omega), if_pos hv]
  split <;> rfl

theorem encodeSample_length (bits : Nat) (v : Int) (bs : List Nat)
    (h : encodeSample bits v = some bs) : bs.length = bytesPerSample bits := by
  unfold encodeSample at h
  split at h
  · exact absurd h (by simp)
  · split at h
    · split at h
      · cases h
        simp only [List.length_cons, List.length_nil]
        unfold bytesPerSample
        omega
      · cases h
        exact uleBytes_length _ _
    · exact absurd h (by simp)

theorem encodeSample_bytes_lt (bits : Nat) (v : Int) (bs : List Nat)
    (h : encodeSample bits v = some bs) : ∀ b ∈ bs, b < 256 := by
  unfold encodeSample at h
  split at h
  · exact absurd h (by simp)
  · rename_i hrange
    split at h
    · rename_i hvalid
      rw [validSample_iff] at hvalid
      split at h
      · rename_i h8
        cases h
        intro b hb
        simp only [List.mem_singleton] at hb
        subst hb
        have hle : (2 ^ (bits - 1) : Int) ≤ 128 := by
          calc (2 ^ (bits - 1) : Int) ≤ 2 ^ 7 := pow_le_pow_right₀ (by norm_num) (by omega)
          _ = 128 := by norm_num
        have : v + 128 < 256 := by linarith [hvalid.2]
        rw [Int.toNat_lt' (by norm_num)]
        exact_mod_cast this
      · cases h
        exact uleBytes_lt _ _
    · exact absurd h (by simp)

theorem decodeSample_encodeSample (bits : Nat) (v : Int) (bs : List Nat)
    (h : encodeSample bits v = some bs) : decodeSample bits bs = v := by
  unfold encodeSample at h
  split at h
  · exact absurd h (by simp)
  · rename_i hrange
    push_neg at hrange
    split at h
    · rename_i hvalid
      rw [validSample_iff] at hvalid
      split at h
      · rename_i h8
        cases h
        have hle : (2 ^ (bits - 1) : Int) ≤ 128 := by
          calc (2 ^ (bits - 1) : Int) ≤ 2 ^ 7 := pow_le_pow_right₀ (by norm_num) (by omega)
          _ = 128 := by norm_num
        have h0 : (0 : Int) ≤ v + 128 := by linarith [hvalid.1]
        simp only [decodeSample, if_pos h8, leVal]
        rw [Nat.mul_zero, Nat.add_zero]
        rw [Int.toNat_of_nonneg h0]
        ring
      · rename_i h8
        cases h
        push_neg at h8
        have hB : 1 ≤ bytesPerSample bits := by
          unfold bytesPerSample
          omega
        have hwide : (2 ^ (bits - 1) : Int) ≤ 2 ^ (8 * bytesPerSample bits - 1) := by
          apply pow_le_pow_right₀ (by norm_num)
          have := bits_le_mul_bytesPerSample bits
          omega
        simp only [decodeSample, if_neg (by omega : ¬ bits ≤ 8)]
        exact sleVal_uleBytes _ hB v (by linarith [hvalid.1]) (by linarith [hvalid.2])
    · exact absurd h (by simp)

/-! ### Writer session lemmas -/

/-- The concatenated SampleCodec encodings of a list of samples. -/
def encodedBytes (bits : Nat) : List Int → List Nat
  | [] => []
  | v :: vs => (encodeSample bits v).getD [] ++ encodedBytes bits vs

theorem writeSamples_ok (bits : Nat) (hb : 1 ≤ bits) (hb32 : bits ≤ 32)
    (l : List Int) (hv : ∀ v ∈ l, validSample bits v = true) :
    ∀ w : WavWriter, w.spec.bits_per_sample = bits →
      writeSamples w l =
        some { spec := w.spec,
               data := w.data ++ encodedBytes bits l,
               samples_written := w.samples_written + l.length,
               data_bytes_written :=
                 w.data_bytes_written + l.length * bytesPerSample bits } := by
  induction l with
  | nil =>
    intro w hw
    simp [writeSamples, encodedBytes]
  | cons v vs ih =>
    intro w hw
    have hvv : validSample bits v = true := hv v (List.mem_cons_self _ _)
    have hrest : ∀ x ∈ vs, validSample bits x = true :=
      fun x hx => hv x (List.mem_cons_of_mem _ hx)
    have henc := encodeSample_eq_some bits v hb hb32 hvv
    obtain ⟨bs, hbs⟩ : ∃ bs, encodeSample bits v = some bs := ⟨_, henc⟩
    have hlen : bs.length = bytesPerSample bits := encodeSample_length bits v bs hbs
    simp only [writeSamples, write_sample, hw, hbs]
    rw [ih hrest _ (by simpa using hw)]
    simp only [encodedBytes, hbs, Option.getD_some, Option.some.injEq, WavWriter.mk.injEq]
    refine ⟨trivial, ?_, ?_, ?_⟩
    · simp [List.append_assoc]
    · simp [List.length_cons]
      omega
    · simp [List.length_cons, hlen]
      ring

/-! ### Reader evaluation lemmas -/

theorem drop_of_split {α : Type} {s l₁ l₂ : List α} {m k n : Nat}
    (hn : n = m + k) (h : s.drop m = l₁ ++ l₂) (hl : l₁.length = k) :
    s.drop n = l₂ := by
  subst hn
  rw [← List.drop_drop, h, drop_app _ _ hl]

theorem expectTag_app (t : List Nat) (msg : String) (rest : List Nat)
    (h : t.length = 4) : expectTag t msg (t ++ rest) = Except.ok rest := by
  simp only [expectTag]
  rw [take_app t rest h, drop_app t rest h]
  rw [if_neg (by simp [List.length_append, h]), if_pos rfl]

theorem scanForChunk_hit (target : List Nat) (sz : Nat) (rest : List Nat)
    (ht : target.length = 4) :
    scanForChunk target (target ++ (uleBytes 4 sz ++ rest)) =
      Except.ok (sz % 2 ^ 32, rest) := by
  rw [scanForChunk]
  have hlen : ¬ (target ++ (uleBytes 4 sz ++ rest)).length < 8 := by
    simp only [List.length_append, ht, uleBytes_length]
    omega
  rw [dif_neg hlen]
  have h1 : (target ++ (uleBytes 4 sz ++ rest)).take 4 = target := take_app _ _ ht
  have h2 : (target ++ (uleBytes 4 sz ++ rest)).drop 4 = uleBytes 4 sz ++ rest :=
    drop_app _ _ ht
  have h3 : (target ++ (uleBytes 4 sz ++ rest)).drop 8 = rest :=
    drop_of_split (by norm_num) h2 (uleBytes_length 4 sz)
  rw [h1, h2, h3, take_app _ _ (uleBytes_length 4 sz), leVal_uleBytes, if_pos rfl]

theorem scanForChunk_skip (target tag : List Nat) (sz : Nat) (body rest : List Nat)
    (ht : tag.length = 4) (hne : tag ≠ target) (hsz : sz < 2 ^ 32)
    (hbody : body.length = sz + sz % 2) :
    scanForChunk target (tag ++ (uleBytes 4 sz ++ (body ++ rest))) =
      scanForChunk target rest := by
  rw [scanForChunk]
  have hlen : ¬ (tag ++ (uleBytes 4 sz ++ (body ++ rest))).length < 8 := by
    simp only [List.length_append, ht, uleBytes_length]
    omega
  rw [dif_neg hlen]
  have h1 : (tag ++ (uleBytes 4 sz ++ (body ++ rest))).take 4 = tag := take_app _ _ ht
  have h2 : (tag ++ (uleBytes 4 sz ++ (body ++ rest))).drop 4 =
      uleBytes 4 sz ++ (body ++ rest) := drop_app _ _ ht
  have h3 : (tag ++ (uleBytes 4 sz ++ (body ++ rest))).drop 8 = body ++ rest :=
    drop_of_split (by norm_num) h2 (uleBytes_length 4 sz)
  have hmod : sz % 2 ^ (8 * 4) = sz := by
    apply Nat.mod_eq_of_lt
    norm_num at hsz ⊢
    omega
  rw [h1, h2, h3, take_app _ _ (uleBytes_length 4 sz), leVal_uleBytes, if_neg hne,
    hmod, if_pos (by simp only [List.length_append, hbody]; omega), drop_app _ _ hbody]

theorem parseFmt_eval (c2 ch2 sr4 br4 ba2 b2 rest : List Nat)
    (h1 : c2.length = 2) (h2 : ch2.length = 2) (h3 : sr4.length = 4)
    (h4 : br4.length = 4) (h5 : ba2.length = 2) (h6 : b2.length = 2) :
    parseFmt 16 (c2 ++ (ch2 ++ (sr4 ++ (br4 ++ (ba2 ++ (b2 ++ rest)))))) =
      if leVal c2 = 1 then
        Except.ok ({ channels := leVal ch2, sample_rate := leVal sr4,
                     bits_per_sample := leVal b2 }, rest)
      else Except.error Error.unsupported := by
  set s := c2 ++ (ch2 ++ (sr4 ++ (br4 ++ (ba2 ++ (b2 ++ rest))))) with hs
  have hd2 : s.drop 2 = ch2 ++ (sr4 ++ (br4 ++ (ba2 ++ (b2 ++ rest)))) :=
    drop_app _ _ h1
  have hd4 : s.drop 4 = sr4 ++ (br4 ++ (ba2 ++ (b2 ++ rest))) :=
    drop_of_split (by norm_num) hd2 h2
  have hd8 : s.drop 8 = br4 ++ (ba2 ++ (b2 ++ rest)) :=
    drop_of_split (by norm_num) hd4 h3
  have hd12 : s.drop 12 = ba2 ++ (b2 ++ rest) :=
    drop_of_split (by norm_num) hd8 h4
  have hd14 : s.drop 14 = b2 ++ rest :=
    drop_of_split (by norm_num) hd12 h5
  have hd16 : s.drop 16 = rest :=
    drop_of_split (by norm_num) hd14 h6
  have hslen : s.length = 16 + rest.length := by
    simp [hs, List.length_append, h1, h2, h3, h4, h5, h6]
    omega
  simp only [parseFmt]
  rw [if_neg (by omega), if_neg (by omega)]
  rw [take_app _ _ h1]
  by_cases hc : leVal c2 = 1
  · rw [if_neg (by simp [hc]), if_pos hc]
    rw [hd2, take_app _ _ h2, hd4, take_app _ _ h3, hd14, take_app _ _ h6]
    norm_num [hd16]
  · rw [if_pos hc, if_neg hc]

theorem except_bind_ok {α β : Type} (x : α) (f : α → Except Error β) :
    Except.bind (Except.ok x) f = f x := rfl

theorem except_bind_err {α β : Type} (e : Error) (f : α → Except Error β) :
    Except.bind (Except.error e : Except Error α) f = Except.error e := rfl

theorem readWav_wavHeader (code : Nat) (sp : WavSpec) (rsz dsz : Nat)
    (payload : List Nat) :
    readWav (wavHeaderGen code sp rsz dsz ++ payload) =
      if code % 2 ^ 16 = 1 then
        Except.ok { spec := { channels := sp.channels % 2 ^ 16,
                              sample_rate := sp.sample_rate % 2 ^ 32,
                              bits_per_sample := sp.bits_per_sample % 2 ^ 16 },
                    dataSize := dsz % 2 ^ 32,
                    avail := payload.take (dsz % 2 ^ 32) }
      else Except.error Error.unsupported := by
  set ba := sp.channels * bytesPerSample sp.bits_per_sample with hb
  set rest3 : List Nat := dataTag ++ (uleBytes 4 dsz ++ payload) with hrest3
  set body : List Nat :=
    uleBytes 2 code ++ (uleBytes 2 sp.channels ++ (uleBytes 4 sp.sample_rate ++
      (uleBytes 4 (sp.sample_rate * ba) ++ (uleBytes 2 ba ++
        (uleBytes 2 sp.bits_per_sample ++ rest3))))) with hbody
  have hs : wavHeaderGen code sp rsz dsz ++ payload =
      riffTag ++ (uleBytes 4 rsz ++ (waveTag ++ (fmtTag ++ (uleBytes 4 16 ++ body)))) := by
    simp only [wavHeaderGen, riffTag, waveTag, fmtTag, dataTag, hbody, hrest3,
      List.append_assoc, hb]
  rw [hs]
  simp only [readWav]
  rw [expectTag_app riffTag "no RIFF tag found" _ (by decide), except_bind_ok]
  rw [if_neg (by simp [List.length_append, uleBytes_length])]
  rw [except_bind_ok, drop_app _ _ (uleBytes_length 4 rsz)]
  rw [expectTag_app waveTag "no WAVE tag found" _ (by decide), except_bind_ok]
  rw [scanForChunk_hit fmtTag 16 body (by decide), except_bind_ok]
  have h16 : (16 : Nat) % 2 ^ 32 = 16 := by norm_num
  rw [hbody]
  rw [h16]
  rw [parseFmt_eval _ _ _ _ _ _ _ (uleBytes_length 2 code) (uleBytes_length 2 sp.channels)
    (uleBytes_length 4 sp.sample_rate) (uleBytes_length 4 (sp.sample_rate * ba))
    (uleBytes_length 2 ba) (uleBytes_length 2 sp.bits_per_sample)]
  rw [leVal_uleBytes, leVal_uleBytes, leVal_uleBytes, leVal_uleBytes]
  by_cases hc : code % 2 ^ (8 * 2) = 1
  · rw [if_pos hc, except_bind_ok]
    rw [hrest3]
    rw [scanForChunk_hit dataTag dsz payload (by decide), except_bind_ok]
    rw [if_pos (by norm_num at hc ⊢; exact hc)]
  · rw [if_neg hc, except_bind_err]
    rw [if_neg (by norm_num at hc ⊢; exact hc)]

theorem drop_app_add {α : Type} (l₁ l₂ : List α) (k n : Nat) (h : l₁.length = k) :
    (l₁ ++ l₂).drop (k + n) = l₂.drop n := by
  rw [← List.drop_drop, drop_app _ _ h]

theorem bytesPerSample_pos (bits : Nat) (hb : 1 ≤ bits) : 0 < bytesPerSample bits := by
  unfold bytesPerSample
  omega

theorem encodedBytes_length (bits : Nat) (hb : 1 ≤ bits) (hb32 : bits ≤ 32)
    (l : List Int) (hv : ∀ v ∈ l, validSample bits v = true) :
    (encodedBytes bits l).length = l.length * bytesPerSample bits := by
  induction l with
  | nil => simp [encodedBytes]
  | cons v vs ih =>
    have hvv := hv v (List.mem_cons_self _ _)
    have hrest : ∀ x ∈ vs, validSample bits x = true :=
      fun x hx => hv x (List.mem_cons_of_mem _ hx)
    have henc := encodeSample_eq_some bits v hb hb32 hvv
    have hlen : ((encodeSample bits v).getD []).length = bytesPerSample bits := by
      rw [henc, Option.getD_some]
      exact encodeSample_length bits v _ henc
    simp only [encodedBytes, List.length_append, List.length_cons, ih hrest, hlen]
    ring

theorem encodedBytes_slice (bits : Nat) (hb : 1 ≤ bits) (hb32 : bits ≤ 32)
    (l : List Int) (hv : ∀ v ∈ l, validSample bits v = true)
    (i : Nat) (hi : i < l.length) :
    ((encodedBytes bits l).drop (i * bytesPerSample bits)).take (bytesPerSample bits)
      = (encodeSample bits (l.get ⟨i, hi⟩)).getD [] := by
  induction l generalizing i with
  | nil => simp at hi
  | cons v vs ih =>
    have hvv := hv v (List.mem_cons_self _ _)
    have hrest : ∀ x ∈ vs, validSample bits x = true :=
      fun x hx => hv x (List.mem_cons_of_mem _ hx)
    have henc := encodeSample_eq_some bits v hb hb32 hvv
    have hlen : ((encodeSample bits v).getD []).length = bytesPerSample bits := by
      rw [henc, Option.getD_some]
      exact encodeSample_length bits v _ henc
    cases i with
    | zero =>
      simp only [encodedBytes, Nat.zero_mul, List.drop_zero, List.get]
      exact take_app _ _ hlen
    | succ j =>
      have hj : j < vs.length := by
        simp only [List.length_cons] at hi
        omega
      have hmul : (j + 1) * bytesPerSample bits =
          bytesPerSample bits + j * bytesPerSample bits := by ring
      simp only [encodedBytes, hmul, List.get]
      rw [drop_app_add _ _ _ _ hlen]
      exact ih hrest j hj

theorem wavSamples_encoded (sp : WavSpec) (l : List Int) (w : Nat)
    (hb : 1 ≤ sp.bits_per_sample) (hb32 : sp.bits_per_sample ≤ 32)
    (hv : ∀ v ∈ l, validSample sp.bits_per_sample v = true)
    (hw : sp.bits_per_sample ≤ w) :
    wavSamples { spec := sp,
                 dataSize := l.length * bytesPerSample sp.bits_per_sample,
                 avail := encodedBytes sp.bits_per_sample l } w
      = l.map Except.ok := by
  have hBpos := bytesPerSample_pos sp.bits_per_sample hb
  have hn : l.length * bytesPerSample sp.bits_per_sample / bytesPerSample sp.bits_per_sample
      = l.length := Nat.mul_div_cancel _ hBpos
  apply List.ext_getElem
  · simp [wavSamples, hn]
  · intro i h1 h2
    simp only [wavSamples, hn, List.getElem_map, List.getElem_range] at h1 ⊢
    have hi : i < l.length := by simpa [hn] using h1
    rw [if_neg (by omega)]
    have havail : (i + 1) * bytesPerSample sp.bits_per_sample ≤
        (encodedBytes sp.bits_per_sample l).length := by
      rw [encodedBytes_length sp.bits_per_sample hb hb32 l hv]
      exact Nat.mul_le_mul_right _ (by omega)
    rw [if_pos havail]
    rw [encodedBytes_slice sp.bits_per_sample hb hb32 l hv i hi]
    have henc := encodeSample_eq_some sp.bits_per_sample (l.get ⟨i, hi⟩) hb hb32
      (hv _ (List.get_mem l i hi))
    rw [henc, Option.getD_some]
    rw [decodeSample_encodeSample sp.bits_per_sample (l.get ⟨i, hi⟩) _ henc]
    simp [List.get_eq_getElem]

theorem dataSizeField_eval (code : Nat) (sp : WavSpec) (rsz dsz : Nat)
    (tail : List Nat) :
    dataSizeField (wavHeaderGen code sp rsz dsz ++ tail) = dsz % 2 ^ 32 := by
  set ba := sp.channels * bytesPerSample sp.bits_per_sample with hb
  set pre : List Nat :=
    riffTag ++ uleBytes 4 rsz ++ waveTag ++ fmtTag ++ uleBytes 4 16 ++
    uleBytes 2 code ++ uleBytes 2 sp.channels ++ uleBytes 4 sp.sample_rate ++
    uleBytes 4 (sp.sample_rate * ba) ++ uleBytes 2 ba ++
    uleBytes 2 sp.bits_per_sample ++ dataTag with hpre
  have hs : wavHeaderGen code sp rsz dsz ++ tail = pre ++ (uleBytes 4 dsz ++ tail) := by
    simp only [wavHeaderGen, riffTag, waveTag, fmtTag, dataTag, hpre,
      List.append_assoc, hb]
  have hlen : pre.length = 40 := by
    simp [hpre, riffTag, waveTag, fmtTag, dataTag, uleBytes_length,
      List.length_append]
  unfold dataSizeField
  rw [hs, drop_app _ _ hlen, take_app _ _ (uleBytes_length 4 dsz), leVal_uleBytes]

theorem riffSizeField_eval (code : Nat) (sp : WavSpec) (rsz dsz : Nat)
    (tail : List Nat) :
    riffSizeField (wavHeaderGen code sp rsz dsz ++ tail) = rsz % 2 ^ 32 := by
  set ba := sp.channels * bytesPerSample sp.bits_per_sample with hb
  have hs : wavHeaderGen code sp rsz dsz ++ tail =
      riffTag ++ (uleBytes 4 rsz ++
        (waveTag ++ fmtTag ++ uleBytes 4 16 ++ uleBytes 2 code ++
         uleBytes 2 sp.channels ++ uleBytes 4 sp.sample_rate ++
         uleBytes 4 (sp.sample_rate * ba) ++ uleBytes 2 ba ++
         uleBytes 2 sp.bits_per_sample ++ dataTag ++ uleBytes 4 dsz ++ tail)) := by
    simp only [wavHeaderGen, riffTag, waveTag, fmtTag, dataTag,
      List.append_assoc, hb]
  unfold riffSizeField
  rw [hs, drop_app _ _ (by decide : riffTag.length = 4),
    take_app _ _ (uleBytes_length 4 rsz), leVal_uleBytes]

/-! ### Claim theorems -/

/-- Claim C6: every error produced by the reader or writer belongs to exactly
one of the four categories (I/O failure, malformed data with a reason,
too-wide, unsupported), and converting an underlying I/O error into the
codec's error type (`From<io::Error>`) preserves the original error as the
wrapped value and as the error's cause. -/
theorem c6_error_taxonomy :
    (∀ e : Error, Error.categoryCount e = 1) ∧
    (∀ ioe : IoErr, Error.fromIo ioe = Error.ioError ioe ∧
      Error.cause (Error.fromIo ioe) = some ioe) := by
  constructor
  · intro e
    cases e <;> rfl
  · intro ioe
    exact ⟨rfl, rfl⟩

/-- Claim C9: the `i16` sample codec ignores its `bits` argument entirely —
writing emits exactly the 2-byte little-endian representation and reading
consumes exactly 2 bytes, with identical behavior for any two `bits`
values. -/
theorem c9_i16_ignores_bits (v : Int) (s : List Nat) (bits1 bits2 : Nat) :
    i16Sample_write v bits1 = i16Sample_write v bits2 ∧
    i16Sample_read s bits1 = i16Sample_read s bits2 ∧
    (i16Sample_write v bits1).length = 2 ∧
    (2 ≤ s.length → ∃ u, i16Sample_read s bits1 = Except.ok (u, s.drop 2)) := by
  refine ⟨rfl, rfl, uleBytes_length 2 _, fun hs => ?_⟩
  simp only [i16Sample_read, read_le_i16]
  rw [if_neg (by omega)]
  exact ⟨_, rfl⟩

/-- Witness for C9 at `v = 5`, `s = [1, 2, 3]`, bits `16` and `8`. -/
theorem c9_witness :
    i16Sample_write 5 16 = i16Sample_write 5 8 ∧
    (∃ u, i16Sample_read [1, 2, 3] 16 = Except.ok (u, List.drop 2 [1, 2, 3])) :=
  ⟨(c9_i16_ignores_bits 5 [1, 2, 3] 16 8).1,
   (c9_i16_ignores_bits 5 [1, 2, 3] 16 8).2.2.2 (by norm_num)⟩

/-- Claim C10: at the codec level, `read` is a left inverse of `write` — for
every `i16` value `v` and every `bits` argument, decoding immediately after
encoding at the same position returns `v` and leaves the rest of the
stream. -/
theorem c10_i16_write_read_roundtrip (v : Int) (bits : Nat) (rest : List Nat)
    (hlo : -32768 ≤ v) (hhi : v < 32768) :
    i16Sample_read (i16Sample_write v bits ++ rest) bits = Except.ok (v, rest) := by
  simp only [i16Sample_read, i16Sample_write, read_le_i16, write_le_i16]
  rw [if_neg (by simp [List.length_append, uleBytes_length])]
  rw [take_app _ _ (uleBytes_length 2 _), drop_app _ _ (uleBytes_length 2 _)]
  have harg : (v % (65536 : Int)).toNat = (v % (2 ^ (8 * 2) : Int)).toNat := by
    norm_num
  rw [harg, sleVal_uleBytes 2 (by norm_num) v
    (by norm_num; omega) (by norm_num; omega)]

/-- Witness for C10 at `v = -2`, `bits = 12`. -/
theorem c10_witness :
    i16Sample_read (i16Sample_write (-2) 12 ++ [7]) 12 = Except.ok (-2, [7]) :=
  c10_i16_write_read_roundtrip (-2) 12 [7] (by norm_num) (by norm_num)

/-- Claim C3: for every `bits_per_sample` in 9..16 the sample codec's on-disk
representation is exactly 2 bytes, little-endian, signed two's-complement,
for both encoding and decoding: the written bytes are 2 valid bytes whose
little-endian value is congruent to the sample modulo `2^16`, and reading
consumes exactly 2 bytes and returns the unique integer in
`[-2^15, 2^15)` congruent to their little-endian value modulo `2^16`. -/
theorem c3_i16_codec_layout (bits : Nat) (h9 : 9 ≤ bits) (h16 : bits ≤ 16)
    (v : Int) (hlo : -32768 ≤ v) (hhi : v < 32768) :
    (i16Sample_write v bits).length = 2 ∧
    (∀ b ∈ i16Sample_write v bits, b < 256) ∧
    ((leVal (i16Sample_write v bits) : Int) % 65536 = v % 65536) ∧
    (∀ b0 b1 : Nat, ∀ rest : List Nat, b0 < 256 → b1 < 256 →
      ∃ u, i16Sample_read (b0 :: (b1 :: rest)) bits = Except.ok (u, rest) ∧
        u % 65536 = ((b0 : Int) + 256 * b1) % 65536 ∧ -32768 ≤ u ∧ u < 32768) := by
  refine ⟨uleBytes_length 2 _, uleBytes_lt 2 _, ?_, ?_⟩
  · simp only [i16Sample_write, write_le_i16, leVal_uleBytes]
    have hnn : (0 : Int) ≤ v % 65536 := Int.emod_nonneg v (by norm_num)
    have hub : v % 65536 < 65536 := Int.emod_lt_of_pos v (by norm_num)
    have htn : (v % (65536 : Int)).toNat % 2 ^ (8 * 2) = (v % (65536 : Int)).toNat := by
      apply Nat.mod_eq_of_lt
      rw [Int.toNat_lt' (by norm_num)]
      norm_num
      omega
    rw [htn, Int.toNat_of_nonneg hnn, Int.emod_emod_of_dvd v (dvd_refl 65536)]
  · intro b0 b1 rest hb0 hb1
    simp only [i16Sample_read, read_le_i16]
    rw [if_neg (by simp)]
    have htake : (b0 :: (b1 :: rest)).take 2 = [b0, b1] := rfl
    have hdrop : (b0 :: (b1 :: rest)).drop 2 = rest := rfl
    rw [htake, hdrop]
    have hb0i : (b0 : Int) ≤ 255 := by exact_mod_cast Nat.le_of_lt_succ hb0
    have hb1i : (b1 : Int) ≤ 255 := by exact_mod_cast Nat.le_of_lt_succ hb1
    have hval : sleVal [b0, b1] =
        if (b0 + 256 * b1 : Nat) < 32768 then ((b0 + 256 * b1 : Nat) : Int)
        else ((b0 + 256 * b1 : Nat) : Int) - 65536 := by
      simp only [sleVal, leVal, List.length_cons, List.length_nil]
      norm_num
    refine ⟨sleVal [b0, b1], rfl, ?_, ?_, ?_⟩
    · rw [hval]
      split
      · push_cast
        ring_nf
      · rename_i hcase
        push_cast
        have heq : (b0 : Int) + 256 * b1 - 65536 =
            ((b0 : Int) + 256 * b1) + 65536 * (-1) := by ring
        rw [heq, Int.add_mul_emod_self_left]
    · rw [hval]
      split
      · omega
      · rename_i hcase
        push_neg at hcase
        have : (32768 : Int) ≤ (b0 : Int) + 256 * b1 := by exact_mod_cast hcase
        push_cast
        omega
    · rw [hval]
      split
      · rename_i hcase
        have : ((b0 + 256 * b1 : Nat) : Int) < 32768 := by exact_mod_cast hcase
        omega
      · push_cast
        omega

/-- Witness for C3 at `bits = 12`, `v = -1000`, decode bytes `24, 252`. -/
theorem c3_witness :
    (i16Sample_write (-1000) 12).length = 2 ∧
    (∃ u, i16Sample_read (24 :: (252 :: [9])) 12 = Except.ok (u, [9]) ∧
      u % 65536 = ((24 : Int) + 256 * 252) % 65536 ∧ -32768 ≤ u ∧ u < 32768) :=
  ⟨(c3_i16_codec_layout 12 (by norm_num) (by norm_num) (-1000) (by norm_num)
      (by norm_num)).1,
   (c3_i16_codec_layout 12 (by norm_num) (by norm_num) (-1000) (by norm_num)
      (by norm_num)).2.2.2 24 252 [9] (by norm_num) (by norm_num)⟩

/-- Claim C5: a stream whose first 4 bytes are not the ASCII tag "RIFF"
fails at open time with a malformed-data (`FormatError`) error, and a
stream whose `fmt ` chunk reports an audio-format code other than 1 (PCM)
fails at open time with `Unsupported`; in both cases `readWav` returns the
error, so no reader is constructed and no sample is ever decoded. -/
theorem c5_open_failures :
    (∀ s : List Nat, s.take 4 ≠ riffTag →
      ∃ reason, readWav s = Except.error (Error.formatError reason)) ∧
    (∀ (code : Nat) (sp : WavSpec) (rsz dsz : Nat) (payload : List Nat),
      code < 2 ^ 16 → code ≠ 1 →
      readWav (wavHeaderGen code sp rsz dsz ++ payload) =
        Except.error Error.unsupported) := by
  constructor
  · intro s hs
    simp only [readWav, expectTag]
    by_cases hlen : s.length < 4
    · rw [if_pos hlen]
      exact ⟨"unexpected end of stream", rfl⟩
    · rw [if_neg hlen, if_neg hs]
      exact ⟨"no RIFF tag found", rfl⟩
  · intro code sp rsz dsz payload hcode hne
    rw [readWav_wavHeader]
    rw [if_neg (by rw [Nat.mod_eq_of_lt hcode]; exact hne)]

/-- Witness for C5: the all-zero 4-byte stream, and a header with format
code 2. -/
theorem c5_witness :
    (∃ reason, readWav [0, 0, 0, 0] = Except.error (Error.formatError reason)) ∧
    readWav (wavHeaderGen 2 ⟨1, 8000, 16⟩ 36 0 ++ []) =
      Except.error Error.unsupported :=
  ⟨c5_open_failures.1 [0, 0, 0, 0] (by decide),
   c5_open_failures.2 2 ⟨1, 8000, 16⟩ 36 0 [] (by norm_num) (by norm_num)⟩

/-- Claim C2: when the declared `bits_per_sample` exceeds the caller's
target sample width `w`, every element of the sample sequence is the
`TooWide` error (the whole sequence is a replicate of it) — in particular
16-bit data pulled at 8-bit width; and when the target is at least as wide
(the working `Int`), decoding sign-extends correctly: decoding the encoding
of any in-range value of any 9..32-bit depth returns exactly that value,
negative values included. -/
theorem c2_too_wide_and_sign_extension :
    (∀ (r : WavReader) (w : Nat), w < r.spec.bits_per_sample →
      wavSamples r w = List.replicate
        (r.dataSize / bytesPerSample r.spec.bits_per_sample)
        (Except.error Error.tooWide)) ∧
    (∀ r : WavReader, r.spec.bits_per_sample = 16 →
      wavSamples r 8 = List.replicate (r.dataSize / 2) (Except.error Error.tooWide)) ∧
    (∀ (bits : Nat) (v : Int), 9 ≤ bits → bits ≤ 32 → validSample bits v = true →
      ∃ bs, encodeSample bits v = some bs ∧ decodeSample bits bs = v) := by
  have h1 : ∀ (r : WavReader) (w : Nat), w < r.spec.bits_per_sample →
      wavSamples r w = List.replicate
        (r.dataSize / bytesPerSample r.spec.bits_per_sample)
        (Except.error Error.tooWide) := by
    intro r w hw
    simp only [wavSamples, if_pos hw]
    rw [List.map_const', List.length_range]
  refine ⟨h1, ?_, ?_⟩
  · intro r h16
    have := h1 r 8 (by omega)
    rw [this, h16]
    rfl
  · intro bits v h9 h32 hv
    have henc := encodeSample_eq_some bits v (by omega) h32 hv
    exact ⟨_, henc, decodeSample_encodeSample bits v _ henc⟩

/-- Witness for C2: a 16-bit reader pulled at 8-bit width, and the
sign-extending roundtrip of `-1` at 24 bits. -/
theorem c2_witness :
    wavSamples ⟨⟨1, 44100, 16⟩, 2, [0, 0]⟩ 8 =
      List.replicate 1 (Except.error Error.tooWide) ∧
    (∃ bs, encodeSample 24 (-1) = some bs ∧ decodeSample 24 bs = -1) := by
  constructor
  · have h := c2_too_wide_and_sign_extension.2.1 ⟨⟨1, 44100, 16⟩, 2, [0, 0]⟩ rfl
    exact h
  · exact c2_too_wide_and_sign_extension.2.2 24 (-1) (by norm_num) (by norm_num)
      (by decide)

/-! ### Writer reachability (claim C7) -/

/-- States of a writer session reachable from `WavWriter.new s` by
successful `write_sample` calls. -/
inductive WriterReachable (s : WavSpec) : WavWriter → Prop where
  | init : WriterReachable s (WavWriter.new s)
  | step {w w2 : WavWriter} {v : Int} (hr : WriterReachable s w)
      (hw : write_sample w v = some w2) : WriterReachable s w2

/-- Claim C7: at every reachable writer state, from construction through any
sequence of successful `write_sample` calls, the session invariant
`data_bytes_written = samples_written * bytesPerSample bits_per_sample`
holds (each call increments both counters consistently), and the buffered
data has exactly `data_bytes_written` bytes. -/
theorem c7_writer_invariant (s : WavSpec) (w : WavWriter)
    (h : WriterReachable s w) :
    w.spec = s ∧
    w.data_bytes_written = w.samples_written * bytesPerSample s.bits_per_sample ∧
    w.data.length = w.data_bytes_written := by
  induction h with
  | init => simp [WavWriter.new]
  | step hr hw ih =>
    obtain ⟨hspec, hinv, hdata⟩ := ih
    rename_i w1 w2 v
    unfold write_sample at hw
    split at hw
    · exact absurd hw (by simp)
    · rename_i bs hbs
      cases hw
      have hlen : bs.length = bytesPerSample s.bits_per_sample := by
        rw [← hspec]
        exact encodeSample_length _ _ _ hbs
      refine ⟨hspec, ?_, ?_⟩
      · simp only [hinv, hlen]
        ring
      · simp [List.length_append, hdata, hlen]

/-- Witness for C7: the state after one successful 16-bit write. -/
theorem c7_witness :
    (WavWriter.mk ⟨1, 8000, 16⟩ [7, 0] 1 2).spec = ⟨1, 8000, 16⟩ ∧
    (WavWriter.mk ⟨1, 8000, 16⟩ [7, 0] 1 2).data_bytes_written =
      (WavWriter.mk ⟨1, 8000, 16⟩ [7, 0] 1 2).samples_written *
        bytesPerSample (16 : Nat) ∧
    (WavWriter.mk ⟨1, 8000, 16⟩ [7, 0] 1 2).data.length =
      (WavWriter.mk ⟨1, 8000, 16⟩ [7, 0] 1 2).data_bytes_written :=
  c7_writer_invariant ⟨1, 8000, 16⟩ _
    (WriterReachable.step (v := 7) WriterReachable.init (by decide))

/-- Claim C8: a `data` chunk with an odd byte count is followed by exactly
one pad byte that is not counted in the declared size — the writer emits
that single pad byte at finalize while the patched size field still counts
only the payload, and the reader's chunk scan skips payload plus pad when
traversing a chunk of odd declared size. -/
theorem c8_odd_chunk_padding :
    (∀ wr : WavWriter, wr.data_bytes_written % 2 = 1 →
      finalize wr = wavHeaderGen 1 wr.spec (36 + wr.data_bytes_written + 1)
        wr.data_bytes_written ++ (wr.data ++ [0]) ∧
      dataSizeField (finalize wr) = wr.data_bytes_written % 2 ^ 32) ∧
    (∀ (target tag : List Nat) (sz : Nat) (body : List Nat) (p : Nat)
       (rest : List Nat),
      tag.length = 4 → tag ≠ target → sz % 2 = 1 → sz < 2 ^ 32 →
      body.length = sz →
      scanForChunk target (tag ++ (uleBytes 4 sz ++ ((body ++ [p]) ++ rest))) =
        scanForChunk target rest) := by
  constructor
  · intro wr hodd
    have hfin : finalize wr = wavHeaderGen 1 wr.spec (36 + wr.data_bytes_written + 1)
        wr.data_bytes_written ++ (wr.data ++ [0]) := by
      simp only [finalize, if_pos hodd, List.length_cons, List.length_nil,
        List.append_assoc]
    refine ⟨hfin, ?_⟩
    rw [hfin, dataSizeField_eval]
  · intro target tag sz body p rest ht hne hodd hsz hbody
    exact scanForChunk_skip target tag sz (body ++ [p]) rest ht hne hsz
      (by simp [List.length_append, hbody, hodd])

/-- Witness for C8: finalizing a one-byte 8-bit session, and scanning past
an odd-sized "LIST" chunk with its pad byte. -/
theorem c8_witness :
    (finalize ⟨⟨1, 8000, 8⟩, [133], 1, 1⟩ =
       wavHeaderGen 1 ⟨1, 8000, 8⟩ (36 + 1 + 1) 1 ++ ([133] ++ [0]) ∧
     dataSizeField (finalize ⟨⟨1, 8000, 8⟩, [133], 1, 1⟩) = 1 % 2 ^ 32) ∧
    scanForChunk dataTag
        ([76, 73, 83, 84] ++ (uleBytes 4 1 ++ (([9] ++ [0]) ++
          (dataTag ++ (uleBytes 4 0 ++ []))))) =
      scanForChunk dataTag (dataTag ++ (uleBytes 4 0 ++ [])) :=
  ⟨c8_odd_chunk_padding.1 ⟨⟨1, 8000, 8⟩, [133], 1, 1⟩ (by norm_num),
   c8_odd_chunk_padding.2 dataTag [76, 73, 83, 84] 1 [9] 0
     (dataTag ++ (uleBytes 4 0 ++ [])) (by norm_num) (by decide) (by norm_num)
     (by norm_num) (by norm_num)⟩

/-- Claim C1 (amended): for every format with channels in {1, 2},
`0 < sample_rate < 2^32` (a `u32` field), bits per sample in
{8, 16, 24, 32}, and every finite list of in-range samples whose total
byte count fits the 32-bit `data` size field, writing all samples and
finalizing, then reading the bytes back, reproduces exactly the same
format descriptor and exactly the same sample sequence in order, at any
target width at least `bits_per_sample`. -/
theorem c1_round_trip (sp : WavSpec) (l : List Int) (w : Nat)
    (hch : sp.channels = 1 ∨ sp.channels = 2)
    (hsr : 0 < sp.sample_rate) (hsr32 : sp.sample_rate < 2 ^ 32)
    (hbits : sp.bits_per_sample = 8 ∨ sp.bits_per_sample = 16 ∨
             sp.bits_per_sample = 24 ∨ sp.bits_per_sample = 32)
    (hv : ∀ v ∈ l, validSample sp.bits_per_sample v = true)
    (hw : sp.bits_per_sample ≤ w)
    (hsize : l.length * bytesPerSample sp.bits_per_sample < 2 ^ 32) :
    ∃ wr, writeSamples (WavWriter.new sp) l = some wr ∧
      ∃ r, readWav (finalize wr) = Except.ok r ∧
        r.spec = sp ∧ wavSamples r w = l.map Except.ok := by
  have hb : 1 ≤ sp.bits_per_sample := by rcases hbits with h | h | h | h <;> omega
  have hb32 : sp.bits_per_sample ≤ 32 := by rcases hbits with h | h | h | h <;> omega
  have hwr := writeSamples_ok sp.bits_per_sample hb hb32 l hv (WavWriter.new sp) rfl
  have hwr2 : writeSamples (WavWriter.new sp) l =
      some ⟨sp, encodedBytes sp.bits_per_sample l, l.length,
            l.length * bytesPerSample sp.bits_per_sample⟩ := by
    rw [hwr]
    simp [WavWriter.new]
  refine ⟨_, hwr2, ?_⟩
  set nb := l.length * bytesPerSample sp.bits_per_sample with hnb
  set pad : List Nat := if nb % 2 = 1 then [0] else [] with hpad
  have hfin : finalize ⟨sp, encodedBytes sp.bits_per_sample l, l.length, nb⟩ =
      wavHeaderGen 1 sp (36 + nb + pad.length) nb ++
        (encodedBytes sp.bits_per_sample l ++ pad) := by
    simp only [finalize, List.append_assoc, hpad]
  rw [hfin, readWav_wavHeader, if_pos (by norm_num)]
  have hch16 : sp.channels % 2 ^ 16 = sp.channels :=
    Nat.mod_eq_of_lt (by rcases hch with h | h <;> omega)
  have hsrm : sp.sample_rate % 2 ^ 32 = sp.sample_rate := Nat.mod_eq_of_lt hsr32
  have hbm : sp.bits_per_sample % 2 ^ 16 = sp.bits_per_sample :=
    Nat.mod_eq_of_lt (by omega)
  have hdm : nb % 2 ^ 32 = nb := Nat.mod_eq_of_lt hsize
  have henclen : (encodedBytes sp.bits_per_sample l).length = nb :=
    encodedBytes_length sp.bits_per_sample hb hb32 l hv
  rw [hch16, hsrm, hbm, hdm, take_app _ _ henclen]
  refine ⟨_, rfl, rfl, ?_⟩
  exact wavSamples_encoded sp l w hb hb32 hv hw

/-- Witness for C1 at a mono 16-bit session with samples `[5, -5]`. -/
theorem c1_witness :
    ∃ wr, writeSamples (WavWriter.new ⟨1, 8000, 16⟩) [5, -5] = some wr ∧
      ∃ r, readWav (finalize wr) = Except.ok r ∧
        r.spec = ⟨1, 8000, 16⟩ ∧ wavSamples r 16 = [5, -5].map Except.ok :=
  c1_round_trip ⟨1, 8000, 16⟩ [5, -5] 16 (Or.inl rfl) (by norm_num) (by norm_num)
    (Or.inr (Or.inl rfl)) (by decide) (by norm_num) (by norm_num [bytesPerSample])

theorem replicate_valid16 (n : Nat) :
    ∀ v ∈ List.replicate n (0 : Int), validSample 16 v = true := by
  intro v hvm
  rw [List.eq_of_mem_replicate hvm]
  decide

theorem replicate0_session (n : Nat) :
    writeSamples (WavWriter.new ⟨2, 44100, 16⟩) (List.replicate n (0 : Int)) =
      some ⟨⟨2, 44100, 16⟩, encodedBytes 16 (List.replicate n (0 : Int)),
            n, n * 2⟩ := by
  have hwr := writeSamples_ok 16 (by norm_num) (by norm_num) _ (replicate_valid16 n)
    (WavWriter.new ⟨2, 44100, 16⟩) rfl
  rw [hwr]
  norm_num [WavWriter.new, List.length_replicate, bytesPerSample]

theorem replicate0_finalize (n : Nat) :
    finalize ⟨⟨2, 44100, 16⟩, encodedBytes 16 (List.replicate n (0 : Int)),
              n, n * 2⟩ =
      wavHeaderGen 1 ⟨2, 44100, 16⟩ (36 + n * 2) (n * 2) ++
        encodedBytes 16 (List.replicate n (0 : Int)) := by
  simp only [finalize]
  rw [if_neg (by omega : ¬ (n * 2) % 2 = 1)]
  simp

/-- Counterexample to C1 as stated: a stereo 16-bit session of `2^31`
samples (`2^32` data bytes) writes and finalizes successfully and reads
back with the same format descriptor, but the `u32` data-size field wraps
to 0, so the sample sequence read back is empty instead of the written
sequence. -/
theorem roundtrip_wrap (n : Nat) (hwrap : n * 2 % 2 ^ 32 = 0) (hn : n ≠ 0) :
    ∃ wr, writeSamples (WavWriter.new ⟨2, 44100, 16⟩)
        (List.replicate n (0 : Int)) = some wr ∧
      ∃ r, readWav (finalize wr) = Except.ok r ∧
        r.spec = ⟨2, 44100, 16⟩ ∧
        wavSamples r 16 ≠ (List.replicate n (0 : Int)).map Except.ok := by
  refine ⟨_, replicate0_session n, ?_⟩
  rw [replicate0_finalize n, readWav_wavHeader, if_pos (by norm_num)]
  rw [hwrap]
  refine ⟨_, rfl, by norm_num, ?_⟩
  intro heq
  have hlen := congrArg List.length heq
  simp only [wavSamples, List.take_zero, Nat.zero_div, List.length_map,
    List.length_range, List.length_replicate] at hlen
  exact hn hlen.symm

theorem c1_counterexample :
    ∃ wr, writeSamples (WavWriter.new ⟨2, 44100, 16⟩)
        (List.replicate (2 ^ 31) (0 : Int)) = some wr ∧
      ∃ r, readWav (finalize wr) = Except.ok r ∧
        r.spec = ⟨2, 44100, 16⟩ ∧
        wavSamples r 16 ≠ (List.replicate (2 ^ 31) (0 : Int)).map Except.ok :=
  roundtrip_wrap (2 ^ 31) (by norm_num) (by norm_num)

/-- Claim C4 (amended): after writing `N` samples of `B` bytes each, when
the resulting sizes fit the 32-bit fields, the patched data-size field
equals `N * B` and the patched RIFF size field equals `36 + N * B`, plus 1
when `N * B` is odd. -/
theorem c4_finalize_size_fields (sp : WavSpec) (l : List Int)
    (hb : 1 ≤ sp.bits_per_sample) (hb32 : sp.bits_per_sample ≤ 32)
    (hv : ∀ v ∈ l, validSample sp.bits_per_sample v = true)
    (hfit : 36 + l.length * bytesPerSample sp.bits_per_sample +
      l.length * bytesPerSample sp.bits_per_sample % 2 < 2 ^ 32) :
    ∃ wr, writeSamples (WavWriter.new sp) l = some wr ∧
      wr.samples_written = l.length ∧
      dataSizeField (finalize wr) = l.length * bytesPerSample sp.bits_per_sample ∧
      riffSizeField (finalize wr) =
        36 + l.length * bytesPerSample sp.bits_per_sample +
          (if l.length * bytesPerSample sp.bits_per_sample % 2 = 1 then 1 else 0) := by
  have hwr := writeSamples_ok sp.bits_per_sample hb hb32 l hv (WavWriter.new sp) rfl
  have hwr2 : writeSamples (WavWriter.new sp) l =
      some ⟨sp, encodedBytes sp.bits_per_sample l, l.length,
            l.length * bytesPerSample sp.bits_per_sample⟩ := by
    rw [hwr]
    simp [WavWriter.new]
  refine ⟨_, hwr2, rfl, ?_, ?_⟩
  · set nb := l.length * bytesPerSample sp.bits_per_sample with hnb
    set pad : List Nat := if nb % 2 = 1 then [0] else [] with hpad
    have hfin : finalize ⟨sp, encodedBytes sp.bits_per_sample l, l.length, nb⟩ =
        wavHeaderGen 1 sp (36 + nb + pad.length) nb ++
          (encodedBytes sp.bits_per_sample l ++ pad) := by
      simp only [finalize, List.append_assoc, hpad]
    rw [hfin, dataSizeField_eval]
    exact Nat.mod_eq_of_lt (by omega)
  · set nb := l.length * bytesPerSample sp.bits_per_sample with hnb
    set pad : List Nat := if nb % 2 = 1 then [0] else [] with hpad
    have hfin : finalize ⟨sp, encodedBytes sp.bits_per_sample l, l.length, nb⟩ =
        wavHeaderGen 1 sp (36 + nb + pad.length) nb ++
          (encodedBytes sp.bits_per_sample l ++ pad) := by
      simp only [finalize, List.append_assoc, hpad]
    have hpadlen : pad.length = if nb % 2 = 1 then 1 else 0 := by
      rw [hpad]
      rcases Nat.mod_two_eq_zero_or_one nb with h | h <;> simp [h]
    rw [hfin, riffSizeField_eval, hpadlen]
    apply Nat.mod_eq_of_lt
    rcases Nat.mod_two_eq_zero_or_one nb with h | h <;> simp [h] <;> omega

/-- Witness for C4: a mono 8-bit session with three samples (odd data
size, so the RIFF total gains the pad byte). -/
theorem c4_witness :
    ∃ wr, writeSamples (WavWriter.new ⟨1, 8000, 8⟩) [5, -6, 7] = some wr ∧
      wr.samples_written = List.length [(5 : Int), -6, 7] ∧
      dataSizeField (finalize wr) =
        List.length [(5 : Int), -6, 7] * bytesPerSample 8 ∧
      riffSizeField (finalize wr) =
        36 + List.length [(5 : Int), -6, 7] * bytesPerSample 8 +
          (if List.length [(5 : Int), -6, 7] * bytesPerSample 8 % 2 = 1
           then 1 else 0) :=
  c4_finalize_size_fields ⟨1, 8000, 8⟩ [5, -6, 7] (by norm_num) (by norm_num)
    (by decide) (by norm_num [bytesPerSample])

/-- Counterexample to C4 as stated: finalizing a stereo 16-bit session of
`2^31` samples (`2^32` data bytes) succeeds, but the patched `u32` fields
wrap — the data-size field holds 0, not `2^31 * 2`, and the RIFF field
holds 36, not `36 + 2^31 * 2`. -/
theorem finalize_wrap (n : Nat) (hwrap : n * 2 % 2 ^ 32 = 0) (hn : n ≠ 0) :
    ∃ wr, writeSamples (WavWriter.new ⟨2, 44100, 16⟩)
        (List.replicate n (0 : Int)) = some wr ∧
      wr.samples_written = n ∧
      dataSizeField (finalize wr) ≠ n * 2 ∧
      riffSizeField (finalize wr) ≠ 36 + n * 2 := by
  refine ⟨_, replicate0_session n, rfl, ?_, ?_⟩
  · rw [replicate0_finalize n, dataSizeField_eval, hwrap]
    omega
  · rw [replicate0_finalize n, riffSizeField_eval]
    have h36 : (36 + n * 2) % 2 ^ 32 = 36 := by
      rw [Nat.add_mod, hwrap]
      norm_num
    rw [h36]
    omega

theorem c4_counterexample :
    ∃ wr, writeSamples (WavWriter.new ⟨2, 44100, 16⟩)
        (List.replicate (2 ^ 31) (0 : Int)) = some wr ∧
      wr.samples_written = 2 ^ 31 ∧
      dataSizeField (finalize wr) ≠ 2 ^ 31 * 2 ∧
      riffSizeField (finalize wr) ≠ 36 + 2 ^ 31 * 2 :=
  finalize_wrap (2 ^ 31) (by norm_num) (by norm_num)

end Hound
